import Mathlib

/-!
Verification of the `url-crawler` crawl-orchestration core: the crawl
Store (`src/data_store.rs`), the URL Frontier (`src/url_frontier.rs`)
and the worker task loop (`src/task.rs`, `src/main.rs::execute`),
shallowly embedded in Lean. External collaborators (HTTP fetcher, link
extractor, URL resolver/scope filter) are abstract function parameters,
exactly as the loop consumes them through traits.
-/

namespace UrlCrawler

/-- Rust `DataStoreEntry` from `src/data_store.rs`: visited flag plus the
ordered list of URLs found on this page. -/
structure DataStoreEntry where
  visited : Bool
  urls_found : List String
  deriving Repr, DecidableEq

/-- The backing association list stands in for the Rust `HashMap`
(keys unique; lookup finds the first matching key). -/
def lookupEntry : List (String × DataStoreEntry) → String → Option DataStoreEntry
  | [], _ => none
  | (k, e) :: rest, key => if k = key then some e else lookupEntry rest key

/-- Models `HashMap::insert`: replace the value at an existing key in place,
otherwise append a new binding. -/
def insertEntry : List (String × DataStoreEntry) → String → DataStoreEntry →
    List (String × DataStoreEntry)
  | [], key, e => [(key, e)]
  | (k, e') :: rest, key, e =>
    if k = key then (key, e) :: rest else (k, e') :: insertEntry rest key e

/-- Models `HashMap::get_mut` followed by a mutation: apply `f` to the value at
`key` if present, leave the map unchanged otherwise. -/
def modifyEntry : List (String × DataStoreEntry) → String → (DataStoreEntry → DataStoreEntry) →
    List (String × DataStoreEntry)
  | [], _, _ => []
  | (k, e) :: rest, key, f =>
    if k = key then (k, f e) :: rest else (k, e) :: modifyEntry rest key f

/-- Rust `Store` from `src/data_store.rs`. -/
structure Store where
  data : List (String × DataStoreEntry)
  deriving Repr, DecidableEq

/-- Models `Store::new`. -/
def Store.new : Store := ⟨[]⟩

/-- Models `Store::get`. -/
def Store.get (s : Store) (key : String) : Option DataStoreEntry :=
  lookupEntry s.data key

/-- Models `Store::add` (`src/data_store.rs` lines 41-65). If the key exists
and a value is supplied, push the value and return; otherwise insert a
fresh unvisited record (replacing any existing one) and, if a value was
supplied, push it onto the fresh record. -/
def Store.add (s : Store) (key : String) (value : Option String) : Store :=
  match s.get key, value with
  | some _, some v =>
    ⟨modifyEntry s.data key fun e => { e with urls_found := e.urls_found ++ [v] }⟩
  | _, _ =>
    let data := insertEntry s.data key { visited := false, urls_found := [] }
    match value with
    | some v => ⟨modifyEntry data key fun e => { e with urls_found := e.urls_found ++ [v] }⟩
    | none => ⟨data⟩

/-- Models `Store::visited`: set the flag on the record for `key` if it exists,
no-op otherwise. -/
def Store.visited (s : Store) (key : String) : Store :=
  ⟨modifyEntry s.data key fun e => { e with visited := true }⟩

/-- Models `Store::has_visited`: false when absent, else the flag. -/
def Store.has_visited (s : Store) (key : String) : Bool :=
  match s.get key with
  | some e => e.visited
  | none => false

/-- Models `Store::exists`. -/
def Store.exists (s : Store) (key : String) : Bool :=
  (s.get key).isSome

/-! Section: URL Frontier (src/url_frontier.rs) -/

/-- Rust `URLFrontier`: a queue of pending URL strings plus the optional
politeness delay in seconds (the `SegQueue` is modelled as a list,
head = next to pop). -/
structure URLFrontier where
  queue : List String
  delay_s : Option Nat
  deriving Repr, DecidableEq

/-- Result of one `dequeue` call: the popped value, the frontier
afterwards, and the number of seconds the call slept before popping
(the `sleep(Duration::from_secs(delay_s))` at the top of `dequeue`). -/
structure DequeueResult where
  value : Option String
  frontier : URLFrontier
  waited : Nat
  deriving Repr, DecidableEq

/-- Models `URLFrontier::dequeue`: sleep for the configured delay if one is
set, then pop the head of the queue. -/
def URLFrontier.dequeue (f : URLFrontier) : DequeueResult :=
  let waited := match f.delay_s with
    | some d => d
    | none => 0
  match f.queue with
  | [] => ⟨none, f, waited⟩
  | x :: rest => ⟨some x, { f with queue := rest }, waited⟩

/-- Models `URLFrontier::enqueue`: push onto the tail. -/
def URLFrontier.enqueue (f : URLFrontier) (value : String) : URLFrontier :=
  { f with queue := f.queue ++ [value] }

/-- Rust `URLFrontierBuilder`. -/
structure URLFrontierBuilder where
  queue : List String
  delay_s : Option Nat
  deriving Repr, DecidableEq

/-- Models `URLFrontierBuilder::new`. -/
def URLFrontierBuilder.new : URLFrontierBuilder := ⟨[], none⟩

/-- Models `URLFrontierBuilder::value`: pre-push one item. -/
def URLFrontierBuilder.value (b : URLFrontierBuilder) (v : String) : URLFrontierBuilder :=
  { b with queue := b.queue ++ [v] }

/-- Models `URLFrontierBuilder::delay_s`: records the delay only when it is
strictly positive, so a configured 0 leaves `delay_s = None`. (Named
`delayS` here because the field projection takes the source name.) -/
def URLFrontierBuilder.delayS (b : URLFrontierBuilder) (d : Nat) : URLFrontierBuilder :=
  if d > 0 then { b with delay_s := some d } else b

/-- Models `URLFrontierBuilder::build`. -/
def URLFrontierBuilder.build (b : URLFrontierBuilder) : URLFrontier :=
  ⟨b.queue, b.delay_s⟩

/-- Repeatedly dequeue until the queue reports empty (or fuel runs
out), collecting the returned values; used to state FIFO order. -/
def drainFuel : Nat → URLFrontier → List String
  | 0, _ => []
  | n + 1, f =>
    match f.dequeue with
    | ⟨none, _, _⟩ => []
    | ⟨some x, f', _⟩ => x :: drainFuel n f'

/-! Section: Worker task loop (src/task.rs::run_task, src/main.rs::execute)

The external collaborators are exactly the operations the loop calls:
`HttpFetch::get`, `Parser::all_links`, `link::process_url` and
`link::filter_url` (the latter two live in the crate's `link` module;
the loop only applies them). They are abstract parameters here. -/

/-- The collaborators one worker iteration consumes. `fetch` returns
the body or a transport error; `allLinks` is `Parser::new(body).all_links()`;
`processUrl raw current` resolves a raw href against the current URL;
`filterUrl` is the scope filter with the crawl's `url_parts` already
applied, yielding the URL when in scope and `none` otherwise. -/
structure CrawlEnv where
  fetch : String → Except String String
  allLinks : String → List String
  processUrl : String → String → String
  filterUrl : String → Option String

/-- The `for url in urls_found` loop body (`src/task.rs` lines 58-69):
resolve the link, record it as a discovery of `current` unconditionally,
then enqueue it when the scope filter passes it and it is not already
visited in the (current) store. -/
def processLinks (env : CrawlEnv) (current : String) :
    List String → Store → URLFrontier → Store × URLFrontier
  | [], s, q => (s, q)
  | l :: rest, s, q =>
    let url := env.processUrl l current
    let s' := s.add current (some url)
    let q' := match env.filterUrl url with
      | some u => if s'.has_visited u then q else q.enqueue u
      | none => q
    processLinks env current rest s' q'

/-- Shared mutable state of the crawl: the one frontier and the one
store. -/
structure WorkerState where
  frontier : URLFrontier
  store : Store
  deriving Repr, DecidableEq

/-- How one pass through the loop body ended: `done` (dequeue returned
`None`, the worker returns), `skip` (an early `continue`: already
visited, or fetch error), `full` (the whole body ran). -/
inductive StepResult where
  | done
  | skip
  | full
  deriving Repr, DecidableEq

/-- Outcome of one loop iteration: the state afterwards, how the body
ended, and the URLs the fetcher was called on (empty or singleton). -/
structure StepOut where
  state : WorkerState
  result : StepResult
  fetched : List String
  deriving Repr, DecidableEq

/-- One iteration of the worker loop (`src/task.rs` lines 29-77 /
`src/main.rs` lines 59-105): dequeue; return if empty; skip if already
visited; fetch, skipping on transport error; otherwise add + mark
visited, then process every extracted link. -/
def workerStep (env : CrawlEnv) (st : WorkerState) : StepOut :=
  match st.frontier.dequeue with
  | ⟨none, f', _⟩ => ⟨⟨f', st.store⟩, .done, []⟩
  | ⟨some current, f', _⟩ =>
    if st.store.has_visited current then
      ⟨⟨f', st.store⟩, .skip, []⟩
    else
      match env.fetch current with
      | .error _ => ⟨⟨f', st.store⟩, .skip, [current]⟩
      | .ok content =>
        let s := (st.store.add current none).visited current
        let (s', q') := processLinks env current (env.allLinks content) s f'
        ⟨⟨q', s'⟩, .full, [current]⟩

/-- The worker loop run to completion (fuel-bounded), with the trace of
fetched URLs; this is the loop as written, with the vestigial
`is_initial_crawl` branch removed. -/
def runWorker (env : CrawlEnv) : Nat → WorkerState → WorkerState × List String
  | 0, st => (st, [])
  | fuel + 1, st =>
    let o := workerStep env st
    match o.result with
    | .done => (o.state, o.fetched)
    | _ =>
      let (st', tr) := runWorker env fuel o.state
      (st', o.fetched ++ tr)

/-- The worker loop exactly as the source writes it, threading the
`is_initial_crawl` flag: an early `continue` leaves the flag alone;
after a full body, `if is_initial_crawl { is_initial_crawl = false;
continue; }` clears it and loops. -/
def runWorkerFlag (env : CrawlEnv) : Nat → WorkerState → Bool → WorkerState × List String
  | 0, st, _ => (st, [])
  | fuel + 1, st, is_initial_crawl =>
    let o := workerStep env st
    match o.result with
    | .done => (o.state, o.fetched)
    | .skip =>
      let (st', tr) := runWorkerFlag env fuel o.state is_initial_crawl
      (st', o.fetched ++ tr)
    | .full =>
      if is_initial_crawl then
        let (st', tr) := runWorkerFlag env fuel o.state false
        (st', o.fetched ++ tr)
      else
        let (st', tr) := runWorkerFlag env fuel o.state is_initial_crawl
        (st', o.fetched ++ tr)

/-! Section: execute (src/main.rs lines 40-116) -/

/-- Modelled from the spec: `OriginParts` / `UrlParts` produced by
`link::url_parts` in the crate's `link` module, which is not among the
crawler's four core source files — "scheme and host (authority) of the
seed". Only its shape matters here; `execute` stores the parse result
and hands it to the scope filter without inspecting it. -/
structure UrlParts where
  scheme : String
  host : String
  deriving Repr, DecidableEq

/-- The collaborators `execute` itself consumes: the per-worker crawl
environment is built from these plus the seed's parse result.
`url_parts` parses the seed (`link::url_parts`, modelled from the spec
as fallible: scheme+host or a malformed-URL error); `filterUrlWith`
is `link::filter_url`, which receives the whole `Result` as `execute`
passes it. -/
structure ExecEnv where
  fetch : String → Except String String
  allLinks : String → List String
  processUrl : String → String → String
  url_parts : String → Except String UrlParts
  filterUrlWith : String → Except String UrlParts → Option String

/-- The per-worker environment `execute` wires up: the parse result of
the seed is computed once and baked into the scope filter. -/
def ExecEnv.toCrawlEnv (env : ExecEnv) (parts : Except String UrlParts) : CrawlEnv :=
  ⟨env.fetch, env.allLinks, env.processUrl, fun u => env.filterUrlWith u parts⟩

/-- The `workers_n` workers. Concurrency is modelled as one admissible
interleaving: each spawned worker runs to completion before the next
(the source in fact holds the frontier's write lock across a whole
iteration, serializing workers). Each loop starts with
`is_initial_crawl = true` as in the source. -/
def runWorkers (env : CrawlEnv) (fuel : Nat) : Nat → WorkerState → WorkerState
  | 0, st => st
  | n + 1, st => runWorkers env fuel n (runWorkerFlag env fuel st true).1

/-- Models `execute`: parse the seed once, seed the frontier (built by `main`
with the seed value and the configured delay), spawn the workers, join
them, and return `Ok(data_store)` — the error branch of the result type
is never constructed. -/
def execute (env : ExecEnv) (url : String) (workers_n : Nat) (delay : Nat) (fuel : Nat) :
    Except String Store :=
  let original_url_parts := env.url_parts url
  let frontier := ((URLFrontierBuilder.new.value url).delayS delay).build
  let st := runWorkers (env.toCrawlEnv original_url_parts) fuel workers_n ⟨frontier, Store.new⟩
  .ok st.store

/-- The links a single page's link loop pushes onto the frontier,
expressed against the store state at loop entry: those the scope
filter passes and that are not already marked visited. This is the
spec-side characterization compared with `processLinks` in C4. -/
def enqueuedLinks (env : CrawlEnv) (current : String) (s : Store) (links : List String) :
    List String :=
  links.filterMap fun l =>
    (env.filterUrl (env.processUrl l current)).bind fun u =>
      if s.has_visited u then none else some u

/-! Section: concrete fixtures for the closed witness theorems -/

/-- A concrete crawl environment: hrefs resolve to themselves, `"out"`
is the only out-of-scope URL, and every fetch fails with a transport
error. -/
def testEnv : CrawlEnv :=
  ⟨fun _ => Except.error "connection refused", fun _ => [],
   fun l _ => l, fun u => if u = "out" then none else some u⟩

/-- A concrete store in which `"cur"` and `"seen"` are visited. -/
def testStore : Store :=
  (((Store.new.add "cur" none).visited "cur").add "seen" none).visited "seen"

/-- A concrete execute environment whose seed parse always fails (and
whose fetches all fail), exercising `execute` on a malformed seed. -/
def badEnv : ExecEnv :=
  ⟨fun _ => Except.error "connection refused", fun _ => [], fun l _ => l,
   fun _ => Except.error "relative URL without a base", fun _ _ => none⟩

/-! Section: Primitive lemmas on the backing list -/

theorem lookupEntry_insertEntry_self (l : List (String × DataStoreEntry)) (key : String)
    (e : DataStoreEntry) : lookupEntry (insertEntry l key e) key = some e := by
  induction l with
  | nil => simp [insertEntry, lookupEntry]
  | cons hd tl ih =>
    obtain ⟨k, e'⟩ := hd
    by_cases h : k = key <;> simp [insertEntry, lookupEntry, h, ih]

theorem lookupEntry_insertEntry_other (l : List (String × DataStoreEntry)) (k key : String)
    (e : DataStoreEntry) (hne : k ≠ key) :
    lookupEntry (insertEntry l k e) key = lookupEntry l key := by
  induction l with
  | nil => simp [insertEntry, lookupEntry, hne]
  | cons hd tl ih =>
    obtain ⟨k', e'⟩ := hd
    by_cases h : k' = k
    · subst h; simp [insertEntry, lookupEntry, hne]
    · simp [insertEntry, lookupEntry, h, ih]

theorem lookupEntry_modifyEntry_self (l : List (String × DataStoreEntry)) (key : String)
    (f : DataStoreEntry → DataStoreEntry) :
    lookupEntry (modifyEntry l key f) key = (lookupEntry l key).map f := by
  induction l with
  | nil => simp [modifyEntry, lookupEntry]
  | cons hd tl ih =>
    obtain ⟨k, e⟩ := hd
    by_cases h : k = key <;> simp [modifyEntry, lookupEntry, h, ih]

theorem lookupEntry_modifyEntry_other (l : List (String × DataStoreEntry)) (k key : String)
    (f : DataStoreEntry → DataStoreEntry) (hne : k ≠ key) :
    lookupEntry (modifyEntry l k f) key = lookupEntry l key := by
  induction l with
  | nil => simp [modifyEntry, lookupEntry]
  | cons hd tl ih =>
    obtain ⟨k', e⟩ := hd
    by_cases h : k' = k
    · subst h; simp [modifyEntry, lookupEntry, hne, ih]
    · simp [modifyEntry, lookupEntry, h, ih]

theorem modifyEntry_absent (l : List (String × DataStoreEntry)) (key : String)
    (f : DataStoreEntry → DataStoreEntry) (h : lookupEntry l key = none) :
    modifyEntry l key f = l := by
  induction l with
  | nil => simp [modifyEntry]
  | cons hd tl ih =>
    obtain ⟨k, e⟩ := hd
    by_cases hk : k = key
    · simp [lookupEntry, hk] at h
    · simp [lookupEntry, hk] at h
      simp [modifyEntry, hk, ih h]

/-! Section: Store-level lemmas -/

theorem Store.get_add_some_present (s : Store) (key v : String) (e : DataStoreEntry)
    (h : s.get key = some e) :
    (s.add key (some v)).get key = some { e with urls_found := e.urls_found ++ [v] } := by
  simp only [Store.add, h]
  simp [Store.get, lookupEntry_modifyEntry_self, Store.get] at h ⊢
  simp [h]

theorem Store.get_add_some_absent (s : Store) (key v : String)
    (h : s.get key = none) :
    (s.add key (some v)).get key = some ⟨false, [v]⟩ := by
  simp only [Store.add, h]
  simp [Store.get, lookupEntry_modifyEntry_self, lookupEntry_insertEntry_self]

theorem Store.get_add_none (s : Store) (key : String) :
    (s.add key none).get key = some ⟨false, []⟩ := by
  rcases hg : s.get key with _ | e <;>
    simp [Store.add, hg, Store.get, lookupEntry_insertEntry_self]

theorem Store.get_add_other (s : Store) (k key : String) (v : Option String)
    (hne : k ≠ key) : (s.add k v).get key = s.get key := by
  rcases hg : s.get k with _ | e <;> rcases v with _ | w <;>
    simp only [Store.get] at hg <;>
    simp [Store.add, hg, Store.get, lookupEntry_modifyEntry_other, lookupEntry_insertEntry_other,
      hne]

theorem Store.get_visited_self (s : Store) (key : String) :
    (s.visited key).get key = (s.get key).map fun e => { e with visited := true } := by
  simp [Store.visited, Store.get, lookupEntry_modifyEntry_self]

theorem Store.get_visited_other (s : Store) (k key : String) (hne : k ≠ key) :
    (s.visited k).get key = s.get key := by
  simp [Store.visited, Store.get, lookupEntry_modifyEntry_other, hne]

/-- Appending a discovery never changes any visited flag: `add` with a
`some` value either pushes onto an existing record (flag untouched) or
creates a fresh record for a key whose flag was already false. -/
theorem Store.has_visited_add_some (s : Store) (k v key : String) :
    (s.add k (some v)).has_visited key = s.has_visited key := by
  by_cases hk : k = key
  · subst hk
    rcases hg : s.get k with _ | e
    · simp [Store.has_visited, Store.get_add_some_absent s k v hg, hg]
    · simp [Store.has_visited, Store.get_add_some_present s k v e hg, hg]
  · simp [Store.has_visited, Store.get_add_other s k key (some v) hk]

theorem Store.has_visited_visited_other (s : Store) (k key : String) (hne : k ≠ key) :
    (s.visited k).has_visited key = s.has_visited key := by
  simp [Store.has_visited, Store.get_visited_other s k key hne]

theorem Store.has_visited_visited (s : Store) (k key : String)
    (h : s.has_visited key = true) : (s.visited k).has_visited key = true := by
  by_cases hk : k = key
  · subst hk
    rcases hg : s.get k with _ | e
    · simp [Store.has_visited, hg] at h
    · simp [Store.has_visited, Store.get_visited_self, hg]
  · rwa [Store.has_visited_visited_other s k key hk]

theorem Store.get_foldl_add (K : String) :
    ∀ (vs : List String) (s : Store) (e : DataStoreEntry), s.get K = some e →
      (vs.foldl (fun st v => st.add K (some v)) s).get K =
        some ⟨e.visited, e.urls_found ++ vs⟩
  | [], s, e, h => by simpa using h
  | v :: vs, s, e, h => by
    simp only [List.foldl_cons]
    rw [Store.get_foldl_add K vs _ _ (Store.get_add_some_present s K v e h)]
    simp

/-! Section: claim theorems -/

/-- C2 counterexample: the visited flag is NOT monotonic over every
Store operation. After `add "k" (Some "v")` and `visited "k"`,
`has_visited "k"` is true, but one more `add "k" None` (the
fall-through `insert` branch of `Store::add`) replaces the record with
a fresh unvisited one, so `has_visited "k"` turns false again. -/
theorem c2_counterexample :
    (((Store.new.add "k" (some "v")).visited "k").has_visited "k" = true) ∧
    ((((Store.new.add "k" (some "v")).visited "k").add "k" none).has_visited "k" = false) := by
  exact ⟨by decide, by decide⟩

/-- C2 (amended): once `has_visited key` is true it stays true under
`visited`, under `add` with a `Some` value on any key, and under `add`
with `None` on any other key; only `add key None` — which replaces the
existing record with a fresh unvisited one — can reset it. The read
operations (`has_visited`, `exists`, `get`) do not mutate the store at
all. -/
theorem c2_visited_monotonic_amended (s : Store) (key : String)
    (h : s.has_visited key = true) :
    (∀ k v, (s.add k (some v)).has_visited key = true) ∧
    (∀ k, (s.visited k).has_visited key = true) ∧
    (∀ k, k ≠ key → (s.add k none).has_visited key = true) := by
  refine ⟨fun k v => ?_, fun k => Store.has_visited_visited s k key h, fun k hk => ?_⟩
  · rw [Store.has_visited_add_some]; exact h
  · unfold Store.has_visited
    rw [Store.get_add_other s k key none hk]
    unfold Store.has_visited at h
    exact h

/-- Witness for the amended C2 at a concrete store. -/
theorem c2_visited_monotonic_amended_witness :
    ((((Store.new.add "k" none).visited "k").add "j" (some "u")).has_visited "k" = true) :=
  (c2_visited_monotonic_amended ((Store.new.add "k" none).visited "k") "k" (by decide)).1 "j" "u"

/-- C3: on a key absent from the store, `add K (Some v1)` then
`add K (Some v2)` yields the record `⟨visited := false, [v1, v2]⟩`, and
more generally any non-empty sequence of `add K (Some v)` calls
accumulates exactly the values in call order, never deduplicated or
reordered, with `visited = false`. -/
theorem c3_discovery_accumulation (s : Store) (K v1 v2 : String) (vs : List String)
    (h : s.get K = none) (hvs : vs ≠ []) :
    ((s.add K (some v1)).add K (some v2)).get K = some ⟨false, [v1, v2]⟩ ∧
    (vs.foldl (fun st v => st.add K (some v)) s).get K = some ⟨false, vs⟩ := by
  constructor
  · have h1 := Store.get_add_some_absent s K v1 h
    have h2 := Store.get_add_some_present _ K v2 _ h1
    simpa using h2
  · obtain ⟨w, ws, rfl⟩ := List.exists_cons_of_ne_nil hvs
    simp only [List.foldl_cons]
    have h1 := Store.get_add_some_absent s K w h
    have h2 := Store.get_foldl_add K ws _ _ h1
    simpa using h2

/-- Witness for C3 at a concrete store and values. -/
theorem c3_discovery_accumulation_witness :
    ((Store.new.add "k" (some "a")).add "k" (some "b")).get "k" = some ⟨false, ["a", "b"]⟩ ∧
    (["a", "b"].foldl (fun st v => st.add "k" (some v)) Store.new).get "k" =
      some ⟨false, ["a", "b"]⟩ :=
  c3_discovery_accumulation Store.new "k" "a" "b" ["a", "b"] rfl (by decide)

/-- C9: on a key with no record, `has_visited` and `exists` return
false, `get` returns `none`, and `visited` is a no-op returning the
store unchanged (in particular it creates no record); none of these
operations has an error case. -/
theorem c9_absent_key_safety (s : Store) (K : String) (h : s.get K = none) :
    s.has_visited K = false ∧ s.exists K = false ∧ s.get K = none ∧ s.visited K = s := by
  refine ⟨?_, ?_, h, ?_⟩
  · simp [Store.has_visited, h]
  · simp [Store.exists, h]
  · obtain ⟨data⟩ := s
    simp only [Store.get] at h
    simp [Store.visited, modifyEntry_absent _ _ _ h]

/-- Witness for C9 at a concrete non-empty store and a never-added key. -/
theorem c9_absent_key_safety_witness :
    (Store.new.add "other" none).has_visited "k" = false ∧
    (Store.new.add "other" none).exists "k" = false ∧
    (Store.new.add "other" none).get "k" = none ∧
    (Store.new.add "other" none).visited "k" = Store.new.add "other" none :=
  c9_absent_key_safety (Store.new.add "other" none) "k" (by decide)

theorem foldl_enqueue (xs : List String) :
    ∀ f : URLFrontier, xs.foldl URLFrontier.enqueue f = ⟨f.queue ++ xs, f.delay_s⟩ := by
  induction xs with
  | nil => intro f; cases f; simp
  | cons x xs ih =>
    intro f
    simp only [List.foldl_cons, ih]
    simp [URLFrontier.enqueue]

theorem drainFuel_length (q : List String) (d : Option Nat) :
    drainFuel q.length ⟨q, d⟩ = q := by
  induction q with
  | nil => rfl
  | cons x xs ih => simpa [drainFuel, URLFrontier.dequeue] using ih

/-- C7: a frontier built with politeness delay 0 has no configured
delay at all (`delay_s = None`), so `dequeue` sleeps 0 seconds on
every call — enqueue of `x` then `dequeue` returns `x` immediately, a
`dequeue` on the empty queue returns `none` with no wait, and more
generally any frontier without a configured delay waits 0 on every
dequeue. -/
theorem c7_zero_delay_synchronous (x : String) (g : URLFrontier) (hg : g.delay_s = none) :
    ((URLFrontierBuilder.new.delayS 0).build).delay_s = none ∧
    (((URLFrontierBuilder.new.delayS 0).build).enqueue x).dequeue = ⟨some x, ⟨[], none⟩, 0⟩ ∧
    ((URLFrontierBuilder.new.delayS 0).build).dequeue = ⟨none, ⟨[], none⟩, 0⟩ ∧
    g.dequeue.waited = 0 := by
  refine ⟨rfl, rfl, rfl, ?_⟩
  obtain ⟨q, d⟩ := g
  have hd : d = none := hg
  subst hd
  cases q <;> rfl

/-- Witness for C7 at a concrete value and frontier. -/
theorem c7_zero_delay_synchronous_witness :
    ((URLFrontierBuilder.new.delayS 0).build).delay_s = none ∧
    (((URLFrontierBuilder.new.delayS 0).build).enqueue "x").dequeue = ⟨some "x", ⟨[], none⟩, 0⟩ ∧
    ((URLFrontierBuilder.new.delayS 0).build).dequeue = ⟨none, ⟨[], none⟩, 0⟩ ∧
    (⟨["y"], none⟩ : URLFrontier).dequeue.waited = 0 :=
  c7_zero_delay_synchronous "x" ⟨["y"], none⟩ rfl

/-- C8: enqueues never fail and append at the tail with no uniqueness
check — enqueuing `xs` (in order, no interleaved dequeues) leaves the
queue equal to the old queue followed by `xs`, and draining returns
exactly that list in FIFO order; enqueuing the same URL twice yields
two entries. -/
theorem c8_fifo_no_dedup (f : URLFrontier) (xs : List String) (u : String) :
    (xs.foldl URLFrontier.enqueue f).queue = f.queue ++ xs ∧
    drainFuel (f.queue ++ xs).length (xs.foldl URLFrontier.enqueue f) = f.queue ++ xs ∧
    ((f.enqueue u).enqueue u).queue = f.queue ++ [u, u] := by
  refine ⟨?_, ?_, ?_⟩
  · rw [foldl_enqueue]
  · rw [foldl_enqueue]
    exact drainFuel_length _ _
  · simp [URLFrontier.enqueue]

theorem enqueuedLinks_add_some (env : CrawlEnv) (current k v : String) (s : Store)
    (ls : List String) :
    enqueuedLinks env current (s.add k (some v)) ls = enqueuedLinks env current s ls := by
  unfold enqueuedLinks
  induction ls with
  | nil => rfl
  | cons a as ih => simp only [List.filterMap_cons, Store.has_visited_add_some, ih]

theorem processLinks_queue (env : CrawlEnv) (current : String) :
    ∀ (links : List String) (s : Store) (q : URLFrontier),
      (processLinks env current links s q).2 =
        ⟨q.queue ++ enqueuedLinks env current s links, q.delay_s⟩
  | [], s, q => by cases q; simp [processLinks, enqueuedLinks]
  | l :: ls, s, q => by
    rcases hf : env.filterUrl (env.processUrl l current) with _ | u
    · simp only [processLinks, hf]
      rw [processLinks_queue env current ls _ q, enqueuedLinks_add_some]
      simp [enqueuedLinks, List.filterMap_cons, hf]
    · rcases hv : s.has_visited u with _ | _
      · have hv' : (s.add current (some (env.processUrl l current))).has_visited u = false := by
          rw [Store.has_visited_add_some]; exact hv
        simp only [processLinks, hf, hv', Bool.false_eq_true, if_false]
        rw [processLinks_queue env current ls _ (q.enqueue u), enqueuedLinks_add_some]
        simp [enqueuedLinks, List.filterMap_cons, hf, hv, URLFrontier.enqueue]
      · have hv' : (s.add current (some (env.processUrl l current))).has_visited u = true := by
          rw [Store.has_visited_add_some]; exact hv
        simp only [processLinks, hf, hv', if_true]
        rw [processLinks_queue env current ls _ q, enqueuedLinks_add_some]
        simp [enqueuedLinks, List.filterMap_cons, hf, hv]

theorem processLinks_store (env : CrawlEnv) (current : String) :
    ∀ (links : List String) (s : Store) (q : URLFrontier) (e : DataStoreEntry),
      s.get current = some e →
      (processLinks env current links s q).1.get current =
        some ⟨e.visited, e.urls_found ++ links.map fun l => env.processUrl l current⟩
  | [], s, q, e, h => by simpa [processLinks] using h
  | l :: ls, s, q, e, h => by
    simp only [processLinks, List.map_cons]
    rw [processLinks_store env current ls _ _ _
      (Store.get_add_some_present s current (env.processUrl l current) e h)]
    simp

/-- C4: in the link loop of a successful iteration, every extracted
link is resolved against the current URL and appended (in order, and
regardless of scope) to the current URL's discovered list, and the
frontier afterwards is the old queue followed by exactly those resolved
links the scope filter passes that are not already marked visited —
the characterization `enqueuedLinks` states that "enqueued iff in
scope and not visited". -/
theorem c4_enqueue_discoveries (env : CrawlEnv) (current : String) (links : List String)
    (s : Store) (q : URLFrontier) (e : DataStoreEntry) (h : s.get current = some e) :
    (processLinks env current links s q).1.get current =
      some ⟨e.visited, e.urls_found ++ links.map fun l => env.processUrl l current⟩ ∧
    (processLinks env current links s q).2 =
      ⟨q.queue ++ enqueuedLinks env current s links, q.delay_s⟩ :=
  ⟨processLinks_store env current links s q e h, processLinks_queue env current links s q⟩

/-- Witness for C4: from `testStore` (where `"cur"` and `"seen"` are
visited), the links `["new", "out", "seen"]` on page `"cur"` are all
recorded as discoveries of `"cur"`, while only `"new"` is enqueued
(`"out"` fails the scope filter, `"seen"` is already visited). -/
theorem c4_enqueue_discoveries_witness :
    (processLinks testEnv "cur" ["new", "out", "seen"] testStore ⟨[], none⟩).1.get "cur" =
      some ⟨true, [] ++ ["new", "out", "seen"].map fun l => testEnv.processUrl l "cur"⟩ ∧
    (processLinks testEnv "cur" ["new", "out", "seen"] testStore ⟨[], none⟩).2 =
      ⟨[] ++ enqueuedLinks testEnv "cur" testStore ["new", "out", "seen"], none⟩ :=
  c4_enqueue_discoveries testEnv "cur" ["new", "out", "seen"] testStore ⟨[], none⟩ ⟨true, []⟩
    (by decide)

/-- C5: the visited check right after dequeue is the single revisit
guard: whenever the dequeued URL is already marked visited, the
iteration is abandoned with the fetcher never called (empty fetch
trace), the store untouched and the worker back at acquiring work; and
whenever it is not marked visited, the fetcher is called on it — so the
check is the only thing standing between a dequeued URL and its fetch. -/
theorem c5_single_revisit_guard (env : CrawlEnv) (st : WorkerState) (u : String)
    (rest : List String) (hq : st.frontier.queue = u :: rest) :
    (st.store.has_visited u = true →
      workerStep env st = ⟨⟨⟨rest, st.frontier.delay_s⟩, st.store⟩, .skip, []⟩) ∧
    (st.store.has_visited u = false → (workerStep env st).fetched = [u]) := by
  obtain ⟨⟨q, d⟩, s⟩ := st
  have hq' : q = u :: rest := hq
  subst hq'
  constructor
  · intro h
    simp [workerStep, URLFrontier.dequeue, h]
  · intro h
    rcases hfetch : env.fetch u with msg | content
    · simp [workerStep, URLFrontier.dequeue, h, hfetch]
    · rcases hp : processLinks env u (env.allLinks content) ((s.add u none).visited u) ⟨rest, d⟩
        with ⟨s', q'⟩
      simp [workerStep, URLFrontier.dequeue, h, hfetch, hp]

/-- Witness for C5: dequeuing the already-visited `"seen"` skips the
iteration with no fetch and leaves the store untouched. -/
theorem c5_single_revisit_guard_witness :
    workerStep testEnv ⟨⟨["seen", "x"], none⟩, testStore⟩ =
      ⟨⟨⟨["x"], none⟩, testStore⟩, .skip, []⟩ :=
  (c5_single_revisit_guard testEnv ⟨⟨["seen", "x"], none⟩, testStore⟩ "seen" ["x"] rfl).1
    (by decide)

/-- C6: when the fetch of the dequeued (unvisited) URL returns a
transport error, the iteration ends with the store exactly unchanged
(no record added, nothing marked visited), nothing enqueued (the
frontier merely lost its head, so no retry), a `skip` outcome rather
than termination, and — since the loop's return type has no error
channel — nothing propagated: the run continues with the next
iteration, merely prefixing the failed URL to the fetch trace. -/
theorem c6_transport_error_contained (env : CrawlEnv) (st : WorkerState) (u msg : String)
    (rest : List String) (fuel : Nat) (hq : st.frontier.queue = u :: rest)
    (hv : st.store.has_visited u = false) (hf : env.fetch u = .error msg) :
    workerStep env st = ⟨⟨⟨rest, st.frontier.delay_s⟩, st.store⟩, .skip, [u]⟩ ∧
    runWorker env (fuel + 1) st =
      ((runWorker env fuel ⟨⟨rest, st.frontier.delay_s⟩, st.store⟩).1,
        u :: (runWorker env fuel ⟨⟨rest, st.frontier.delay_s⟩, st.store⟩).2) := by
  obtain ⟨⟨q, d⟩, s⟩ := st
  have hq' : q = u :: rest := hq
  subst hq'
  have hstep : workerStep env ⟨⟨u :: rest, d⟩, s⟩ = ⟨⟨⟨rest, d⟩, s⟩, .skip, [u]⟩ := by
    simp [workerStep, URLFrontier.dequeue, hv, hf]
  refine ⟨hstep, ?_⟩
  rcases hrun : runWorker env fuel ⟨⟨rest, d⟩, s⟩ with ⟨st', tr⟩
  simp [runWorker, hstep, hrun]

/-- Witness for C6: a failing fetch of `"new"` pops the queue, fetches
once, changes nothing in the store and continues. -/
theorem c6_transport_error_contained_witness :
    workerStep testEnv ⟨⟨["new"], some 2⟩, testStore⟩ =
      ⟨⟨⟨[], some 2⟩, testStore⟩, .skip, ["new"]⟩ :=
  (c6_transport_error_contained testEnv ⟨⟨["new"], some 2⟩, testStore⟩ "new"
    "connection refused" [] 1 rfl (by decide) rfl).1

/-- C10: the `is_initial_crawl` flag is dead state — the loop exactly
as the source writes it (threading the flag, clearing it after the
first full iteration, with a `continue` that merely re-enters the
loop) computes, for every environment, fuel, state and initial flag
value, the same final state and the same fetch trace as the loop with
the flag and its branch removed. -/
theorem c10_initial_crawl_flag_no_effect (env : CrawlEnv) (fuel : Nat) (st : WorkerState)
    (flag : Bool) : runWorkerFlag env fuel st flag = runWorker env fuel st := by
  induction fuel generalizing st flag with
  | zero => rfl
  | succ n ih =>
    simp only [runWorker, runWorkerFlag]
    cases hres : (workerStep env st).result with
    | done => simp [hres]
    | skip => simp [hres, ih]
    | full => cases flag <;> simp [hres, ih]

/-- C1 counterexample: `execute` does not return an error on a
malformed seed. With a seed whose parse fails (`url_parts` yields an
error, which `execute` stores and passes on without inspecting) the
run still spawns its worker, the worker's fetch of the seed fails
per-URL, and `execute` returns `Ok` with the (empty) store — refuting
"returns an error if and only if the seed URL cannot be parsed". -/
theorem c1_counterexample :
    badEnv.url_parts "::bad" = .error "relative URL without a base" ∧
    execute badEnv "::bad" 1 0 4 = .ok Store.new :=
  ⟨rfl, rfl⟩

/-- C1 (amended): `execute` never returns an error for any input — the
`Err` branch of its result type is never constructed. It always
returns `Ok` with the store the workers built; a malformed seed does
not abort the run (its parse result is only ever handed to the scope
filter), and no per-URL failure surfaces as a run-level error. -/
theorem c1_execute_always_ok (env : ExecEnv) (url : String) (workers_n delay fuel : Nat) :
    execute env url workers_n delay fuel =
      .ok (runWorkers (env.toCrawlEnv (env.url_parts url)) fuel workers_n
        ⟨((URLFrontierBuilder.new.value url).delayS delay).build, Store.new⟩).store :=
  rfl

end UrlCrawler
